import Mathlib

/-!
A shallow embedding of the spreadsheet-extraction core of `src/main.py`
(the consultório-occupancy dashboard).  Text is modelled as lists of Unicode
code points (`Str := List Nat`); a missing spreadsheet cell is `none`.
The embedded functions follow the source: `_normalize_col`,
`detect_header_and_parse`, `tidy_from_sheets`, `_to_number` and
`load_medicos_from_excel`.
-/

/-- Text: a list of Unicode code points. -/
abbrev Str := List Nat

/-- A spreadsheet cell; `none` models a missing value (pandas `NaN`). -/
abbrev Cell := Option Str

/-- Code points of a string literal. -/
def txt (s : String) : Str := s.data.map Char.toNat

/-- Whitespace code points recognised by `str.strip` and `\s`
(space, tab, newline, carriage return, vertical tab, form feed). -/
def isSpace (n : Nat) : Bool :=
  decide (n = 32 ∨ n = 9 ∨ n = 10 ∨ n = 13 ∨ n = 11 ∨ n = 12)

/-- `str.lower` on the Latin repertoire the program manipulates: ASCII
`A`-`Z` and the Latin-1 uppercase letters (192-222 except the multiplication
sign 215) gain 32; everything else is unchanged. -/
def lowerN (n : Nat) : Nat :=
  if 65 ≤ n ∧ n ≤ 90 then n + 32
  else if 192 ≤ n ∧ n ≤ 222 ∧ n ≠ 215 then n + 32
  else n

/-- `str.upper` on the same repertoire: ASCII `a`-`z` and the Latin-1
lowercase letters (224-254 except the division sign 247) lose 32. -/
def upperN (n : Nat) : Nat :=
  if 97 ≤ n ∧ n ≤ 122 then n - 32
  else if 224 ≤ n ∧ n ≤ 254 ∧ n ≠ 247 then n - 32
  else n

/-- The chained accent replacements of `_normalize_col` (src/main.py lines
51-57): á ã â → a, é ê → e, í î → i, ó õ ô → o, ú ü → u, ç → c, as code
points 225 227 226 → 97, 233 234 → 101, 237 238 → 105, 243 245 244 → 111,
250 252 → 117, 231 → 99.  Each replacement is one character for one
character, so the chain is a single pointwise map. -/
def accentN (n : Nat) : Nat :=
  if n = 225 ∨ n = 227 ∨ n = 226 then 97
  else if n = 233 ∨ n = 234 then 101
  else if n = 237 ∨ n = 238 then 105
  else if n = 243 ∨ n = 245 ∨ n = 244 then 111
  else if n = 250 ∨ n = 252 then 117
  else if n = 231 then 99
  else n

/-- Python `str.strip`: remove leading and trailing whitespace. -/
def stripL (l : Str) : Str :=
  ((l.dropWhile isSpace).reverse.dropWhile isSpace).reverse

/-- `re.sub(r"\s+", " ", ·)`: every maximal whitespace run becomes one
space.  The Boolean flag records whether the previous character was
whitespace (i.e. whether we are inside a run whose space is already
emitted). -/
def collapseAux : Bool → Str → Str
  | _, [] => []
  | prev, c :: t =>
    if isSpace c then
      if prev then collapseAux true t else 32 :: collapseAux true t
    else c :: collapseAux false t

/-- `re.sub(r"\s+", " ", ·)` from the start of the text. -/
def collapseWs (l : Str) : Str := collapseAux false l

/-- `_normalize_col` from `src/main.py` (lines 49-59): stringify, strip,
lowercase, replace accented characters, collapse whitespace runs. -/
def normalize_col (l : Str) : Str :=
  collapseWs (((stripL l).map lowerN).map accentN)

/-- Python's `needle in hay` substring test. -/
def substr (needle : Str) : Str → Bool
  | [] => needle.isEmpty
  | c :: t => needle.isPrefixOf (c :: t) || substr needle t

/-- The weekday substrings of line 76 (and of the fallback regex of line 85). -/
def weekdayKws : List Str :=
  [txt "segunda", txt "terca", txt "terça", txt "quarta", txt "quinta",
   txt "sexta", txt "sabado", txt "sábado"]

/-- Day-column test of line 76: name contains "dia" or any weekday substring. -/
def diaKw (cn : Str) : Bool :=
  substr (txt "dia") cn || weekdayKws.any (fun d => substr d cn)

/-- Morning-column test of line 78: name contains "manha" or "manhã". -/
def manhaKw (cn : Str) : Bool :=
  substr (txt "manha") cn || substr (txt "manhã") cn

/-- Afternoon-column test of line 79: name contains "tarde". -/
def tardeKw (cn : Str) : Bool := substr (txt "tarde") cn

/-- The column scan of `detect_header_and_parse` (src/main.py lines 74-79):
walk the normalized column names with their indices; the day slot is only
assigned while still `none` (`if col_dia is None`), whereas the morning and
afternoon slots are overwritten by every match. -/
def scanCols : Nat → Option Nat → Option Nat → Option Nat → List Str →
    Option Nat × Option Nat × Option Nat
  | _, d, m, t, [] => (d, m, t)
  | i, d, m, t, cn :: rest =>
    scanCols (i + 1)
      (if d = none ∧ diaKw cn then some i else d)
      (if manhaKw cn then some i else m)
      (if tardeKw cn then some i else t) rest

/-- A worksheet grid: rows of cells (title rows may precede the header). -/
abbrev Grid := List (List Cell)

/-- A worksheet: its name and its grid. -/
structure Sheet where
  name : Str
  grid : Grid

/-- `str(x)` on a cell: a missing value stringifies to the literal "nan". -/
def cellStr (c : Cell) : Str :=
  match c with
  | none => txt "nan"
  | some s => s

/-- A parsed frame: column labels and data rows. -/
structure RawFrame where
  cols : List Str
  rows : List (List Cell)

/-- `excel.parse(sheet, header=h)`: row `h` supplies the column labels and
the rows below it the data; a header offset beyond the grid is a parse
failure (the source's `except Exception: continue`). -/
def parseAt (g : Grid) (h : Nat) : Option RawFrame :=
  if h < g.length then some ⟨(g.getD h []).map cellStr, g.drop (h + 1)⟩ else none

/-- `df.dropna(how="all")`: drop rows whose cells are all missing. -/
def dropNaRows (rows : List (List Cell)) : List (List Cell) :=
  rows.filter (fun r => r.any (fun c => c.isSome))

/-- Indices of the columns kept by `df.dropna(axis=1, how="all")`:
those with at least one present value. -/
def liveCols (ncols : Nat) (rows : List (List Cell)) : List Nat :=
  (List.range ncols).filter (fun j => rows.any (fun r => (r.getD j none).isSome))

/-- `df.dropna(how="all").dropna(axis=1, how="all")` (line 67). -/
def dropNa (f : RawFrame) : RawFrame :=
  let rows := dropNaRows f.rows
  let js := liveCols f.cols.length rows
  ⟨js.map (fun j => f.cols.getD j []),
   rows.map (fun r => js.map (fun j => r.getD j none))⟩

/-- Fallback day detection (lines 82-86): the first column's values,
stringified and lowercased, contain some weekday substring. -/
def rowHasWeekday (rows : List (List Cell)) : Bool :=
  rows.any (fun r => weekdayKws.any (fun d => substr d ((cellStr (r.getD 0 none)).map lowerN)))

/-- A detected schedule row before reshaping: the stripped day text and the
cells of the morning and afternoon columns (when those columns exist). -/
structure DetRow where
  dia : Str
  manha : Cell
  tarde : Cell
deriving DecidableEq

/-- The frame returned by a successful header-offset attempt. -/
structure DetFrame where
  hasManha : Bool
  hasTarde : Bool
  rows : List DetRow
deriving DecidableEq

/-- One header-offset attempt of `detect_header_and_parse` (lines 63-97):
parse, drop all-missing rows and columns, skip if empty, scan the
normalized column names, fall back to the first column for the day, and on
success keep the day/shift columns, strip the day text and drop rows with
empty day text. -/
def detectAt (g : Grid) (h : Nat) : Option DetFrame :=
  match parseAt g h with
  | none => none
  | some f0 =>
    let f := dropNa f0
    if f.rows = [] ∨ f.cols = [] then none
    else
      let colsNorm := f.cols.map normalize_col
      let s := scanCols 0 none none none colsNorm
      let m := s.2.1
      let t := s.2.2
      let d := if s.1 = none ∧ 1 ≤ f.cols.length ∧ rowHasWeekday f.rows then some 0 else s.1
      match d with
      | none => none
      | some di =>
        if m.isSome || t.isSome then
          some { hasManha := m.isSome, hasTarde := t.isSome,
                 rows := (f.rows.map (fun r =>
                   { dia := stripL (cellStr (r.getD di none)),
                     manha := match m with | some j => r.getD j none | none => none,
                     tarde := match t with | some j => r.getD j none | none => none })).filter
                   (fun dr => !dr.dia.isEmpty) }
        else none

/-- `detect_header_and_parse` (lines 61-98): try header offsets 0..4 in
order, first success wins, `None` when all fail. -/
def detect_header_and_parse (g : Grid) : Option DetFrame :=
  [0, 1, 2, 3, 4].findSome? (detectAt g)

/-- Case-insensitive whole-text `str.replace(pat, rep, case=False)`,
left to right over non-overlapping occurrences.  The recursion is fuelled
by the initial length; every step consumes at least one character, so the
fuel never runs out. -/
def replCIAux (pat rep : Str) : Nat → Str → Str
  | _, [] => []
  | 0, l => l
  | fuel + 1, c :: t =>
    if !pat.isEmpty && ((c :: t).take pat.length).map lowerN == pat.map lowerN then
      rep ++ replCIAux pat rep fuel ((c :: t).drop pat.length)
    else c :: replCIAux pat rep fuel t

/-- Case-insensitive replace, fuelled by the text length. -/
def replCI (pat rep l : Str) : Str := replCIAux pat rep l.length l

/-- Python `str.capitalize`: first character uppercased, rest lowercased. -/
def capitalizeL : Str → Str
  | [] => []
  | c :: t => upperN c :: t.map lowerN

/-- Day canonicalisation of `tidy_from_sheets` (lines 108-111): strip,
restore the accents of terça/sábado case-insensitively, capitalize. -/
def canonDia (s : Str) : Str :=
  capitalizeL (replCI (txt "sabado") (txt "sábado") (replCI (txt "terca") (txt "terça") (stripL s)))

/-- Doctor-cell cleaning of line 115:
`astype(str).replace({"nan": "", "None": ""}).str.strip()`. -/
def medClean (c : Cell) : Str :=
  let s := cellStr c
  stripL (if s == txt "nan" then [] else if s == txt "None" then [] else s)

/-- The ordered day categories of line 120. -/
def sixDias : List Str :=
  [txt "Segunda", txt "Terça", txt "Quarta", txt "Quinta", txt "Sexta", txt "Sábado"]

/-- One long-format schedule row of the final table. -/
structure SRow where
  sala : Str
  dia : Option Str
  turno : Str
  medico : Str
  ocupado : Bool
deriving DecidableEq

/-- Per-sheet part of `tidy_from_sheets` (lines 105-116): detect, skip on
`None` or empty, canonicalise the day, melt wide to long with the morning
rows before the afternoon rows, and clean the doctor text. -/
def sheetLongRows (s : Sheet) : List (Str × Str × Str) :=
  match detect_header_and_parse s.grid with
  | none => []
  | some f =>
    if f.rows.isEmpty then []
    else
      (if f.hasManha then f.rows.map (fun r => (canonDia r.dia, txt "Manhã", medClean r.manha)) else []) ++
      (if f.hasTarde then f.rows.map (fun r => (canonDia r.dia, txt "Tarde", medClean r.tarde)) else [])

/-- Post-concat row finishing (lines 120-121): the categorical day (a value
outside the six categories becomes missing, the row is kept) and the
derived `Ocupado` flag. -/
def mkSRow (sala : Str) : Str × Str × Str → SRow
  | (d, t, m) =>
    { sala := sala, dia := if sixDias.contains d then some d else none,
      turno := t, medico := m, ocupado := !m.isEmpty }

/-- Schedule sheet selection of line 104: the normalized sheet name
contains "consult" and does not contain "ocupa". -/
def schedKeep (name : Str) : Bool :=
  substr (txt "consult") (normalize_col name) && !(substr (txt "ocupa") (normalize_col name))

/-- All final schedule rows contributed by one sheet. -/
def sheetSched (s : Sheet) : List SRow :=
  if schedKeep s.name then (sheetLongRows s).map (mkSRow (stripL s.name)) else []

/-- `tidy_from_sheets` (lines 100-122) as the list of final schedule rows.
(The source's early return of an empty frame when no sheet qualifies yields
the same empty row list.) -/
def tidy_from_sheets (wb : List Sheet) : List SRow :=
  (wb.map sheetSched).flatten

/-- Lines 125-127: the dashboard halts (`st.stop`) exactly when the
schedule table is empty. -/
def dashboardHalts (wb : List Sheet) : Bool := (tidy_from_sheets wb).isEmpty

/-- ASCII digit test. -/
def isDigitN (n : Nat) : Bool := decide (48 ≤ n ∧ n ≤ 57)

/-- `re.sub(r"[^\d,.-]", "", txt)` (line 214): keep digits, comma 44,
period 46, minus 45. -/
def cleanNum (s : Str) : Str :=
  s.filter (fun n => isDigitN n || n == 44 || n == 46 || n == 45)

/-- Separator fixing of `_to_number` (lines 215-218): with both comma and
period, remove periods and turn commas into periods; with only a comma,
turn it into a period. -/
def sepFix (s : Str) : Str :=
  if s.contains 44 && s.contains 46 then
    (s.filter (fun n => n != 46)).map (fun n => if n = 44 then 46 else n)
  else if s.contains 44 then s.map (fun n => if n = 44 then 46 else n)
  else s

/-- Value of a digit string. -/
def digitsVal (l : Str) : Nat := l.foldl (fun a n => a * 10 + (n - 48)) 0

/-- Decimal-literal recogniser matching Python `float` on the post-cleaning
alphabet (digits, periods, minus signs): digits, optionally one period with
digits around it, at least one digit in total.  Returns the mantissa value
and the number of fractional digits. -/
def parseUnsignedParts (s : Str) : Option (Nat × Nat) :=
  let ip := s.takeWhile isDigitN
  match s.dropWhile isDigitN with
  | [] => if ip.isEmpty then none else some (digitsVal ip, 0)
  | 46 :: fr =>
    if fr.all isDigitN && (!ip.isEmpty || !fr.isEmpty) then
      some (digitsVal (ip ++ fr), fr.length)
    else none
  | _ => none

/-- Sign handling of the float literal: one optional leading minus 45. -/
def pyParts (s : Str) : Option (Bool × Nat × Nat) :=
  match s with
  | 45 :: rest => (parseUnsignedParts rest).map (fun p => (true, p.1, p.2))
  | _ => (parseUnsignedParts s).map (fun p => (false, p.1, p.2))

/-- `float(txt)` on the cleaned text, as a rational; `none` on failure. -/
def pyFloat (s : Str) : Option ℚ :=
  (pyParts s).map (fun p => (if p.1 then -1 else 1) * (p.2.1 : ℚ) / 10 ^ p.2.2)

/-- `_to_number` from `src/main.py` (lines 209-222): missing stays missing
(`pd.isna`); otherwise strip non-numeric characters, fix separators and
attempt float conversion; conversion failure yields missing, not an error. -/
def to_number (x : Cell) : Option ℚ :=
  match x with
  | none => none
  | some v => pyFloat (sepFix (cleanNum v))

/-- The canonical doctor-registry fields of `load_medicos_from_excel`:
Médico, CRM, Especialidade, Planos, Valor Aluguel, Sala Exclusiva,
Sala Dividida. -/
inductive Canon
  | med | crm | esp | pla | val | exc | dv
deriving DecidableEq

/-- Line 240: "nome" or "medico" in the normalized name. -/
def nomeKw (c : Str) : Bool := substr (txt "nome") c || substr (txt "medico") c

/-- Line 241: the name equals "crm" or contains "crm". -/
def crmKw (c : Str) : Bool := c == txt "crm" || substr (txt "crm") c

/-- Line 242: contains "especial". -/
def espKw (c : Str) : Bool := substr (txt "especial") c

/-- Line 243: contains "planos" or equals "plano". -/
def plaKw (c : Str) : Bool := substr (txt "planos") c || c == txt "plano"

/-- Line 244: contains "valor", "aluguel" or "negoci". -/
def valKw (c : Str) : Bool :=
  substr (txt "valor") c || substr (txt "aluguel") c || substr (txt "negoci") c

/-- Line 245: contains "exclus". -/
def excKw (c : Str) : Bool := substr (txt "exclus") c

/-- Line 246: contains "divid". -/
def dvKw (c : Str) : Bool := substr (txt "divid") c

/-- The sequential `if` chain of lines 240-246 over the seven keyword
tests: every test that fires overwrites the pending assignment
(`rename[c] = ...`), so a later group overrides an earlier one. -/
def renameChain (b1 b2 b3 b4 b5 b6 b7 : Bool) : Option Canon :=
  let r : Option Canon := none
  let r := if b1 then some Canon.med else r
  let r := if b2 then some Canon.crm else r
  let r := if b3 then some Canon.esp else r
  let r := if b4 then some Canon.pla else r
  let r := if b5 then some Canon.val else r
  let r := if b6 then some Canon.exc else r
  let r := if b7 then some Canon.dv else r
  r

/-- Canonical field assigned to one normalized column name. -/
def renameCol (c : Str) : Option Canon :=
  renameChain (nomeKw c) (crmKw c) (espKw c) (plaKw c) (valKw c) (excKw c) (dvKw c)

/-- First index of a column satisfying a test. -/
def firstIdx? (p : Str → Bool) : List Str → Option Nat
  | [] => none
  | c :: t => if p c then some 0 else (firstIdx? p t).map (· + 1)

/-- Last index of a column satisfying a test. -/
def lastIdx? (p : Str → Bool) : List Str → Option Nat
  | [] => none
  | c :: t =>
    match lastIdx? p t with
    | some k => some (k + 1)
    | none => if p c then some 0 else none

/-- Index of the (first) column assigned to a canonical field. -/
def colIdx (cs : List Str) (k : Canon) : Option Nat :=
  firstIdx? (fun c => renameCol c == some k) cs

/-- The seven cells of one registry row, in canonical-field order; a field
whose column is absent from the sheet holds a missing cell. -/
structure MedCells where
  med : Cell
  crm : Cell
  esp : Cell
  pla : Cell
  exc : Cell
  dv : Cell
  val : Cell
deriving DecidableEq

/-- The recognized columns and rows contributed by one doctor sheet. -/
structure MedFrame where
  hasMed : Bool
  hasCRM : Bool
  hasEsp : Bool
  hasPla : Bool
  hasExc : Bool
  hasDv : Bool
  hasVal : Bool
  rows : List MedCells
deriving DecidableEq

/-- Cell of a canonical field in one data row. -/
def cellOf (cs : List Str) (k : Canon) (r : List Cell) : Cell :=
  match colIdx cs k with
  | some j => r.getD j none
  | none => none

/-- Doctor sheet selection of line 228: the normalized name contains "medic". -/
def medKeep (name : Str) : Bool := substr (txt "medic") (normalize_col name)

/-- One sheet of `load_medicos_from_excel` (lines 226-252): select by name,
parse with header 0 (an exception or an empty frame skips the sheet),
normalize the column names, build the rename mapping, and skip the sheet
when no canonical column is recognized. -/
def medFrameOf (s : Sheet) : Option MedFrame :=
  if medKeep s.name then
    match parseAt s.grid 0 with
    | none => none
    | some f =>
      if f.rows = [] ∨ f.cols = [] then none
      else
        let cs := f.cols.map normalize_col
        if (colIdx cs Canon.med).isSome || (colIdx cs Canon.crm).isSome ||
           (colIdx cs Canon.esp).isSome || (colIdx cs Canon.pla).isSome ||
           (colIdx cs Canon.exc).isSome || (colIdx cs Canon.dv).isSome ||
           (colIdx cs Canon.val).isSome then
          some { hasMed := (colIdx cs Canon.med).isSome,
                 hasCRM := (colIdx cs Canon.crm).isSome,
                 hasEsp := (colIdx cs Canon.esp).isSome,
                 hasPla := (colIdx cs Canon.pla).isSome,
                 hasExc := (colIdx cs Canon.exc).isSome,
                 hasDv := (colIdx cs Canon.dv).isSome,
                 hasVal := (colIdx cs Canon.val).isSome,
                 rows := f.rows.map (fun r =>
                   ⟨cellOf cs Canon.med r, cellOf cs Canon.crm r, cellOf cs Canon.esp r,
                    cellOf cs Canon.pla r, cellOf cs Canon.exc r, cellOf cs Canon.dv r,
                    cellOf cs Canon.val r⟩) }
        else none
  else none

/-- Union of the recognized columns across sheets: `pd.concat` keeps every
column present in at least one frame. -/
structure MedFlags where
  hasMed : Bool
  hasCRM : Bool
  hasEsp : Bool
  hasPla : Bool
  hasExc : Bool
  hasDv : Bool
  hasVal : Bool
deriving DecidableEq

/-- Column union across the kept frames. -/
def unionFlags (frames : List MedFrame) : MedFlags :=
  ⟨frames.any (fun f => f.hasMed), frames.any (fun f => f.hasCRM),
   frames.any (fun f => f.hasEsp), frames.any (fun f => f.hasPla),
   frames.any (fun f => f.hasExc), frames.any (fun f => f.hasDv),
   frames.any (fun f => f.hasVal)⟩

/-- Room-flag normalization of line 262, cell-wise:
`astype(str).str.strip().str.upper().replace({"X": "Sim", "": ""})`. -/
def flagFinal (c : Cell) : Str :=
  let s := (stripL (cellStr c)).map upperN
  if s == txt "X" then txt "Sim" else if s == txt "" then txt "" else s

/-- One finished registry row: Médico/Planos as trimmed text cells, the
room-flag cells normalized, the rent parsed to a rational. -/
structure MedOutRow where
  med : Cell
  crm : Cell
  esp : Cell
  pla : Cell
  exc : Cell
  dv : Cell
  val : Option ℚ
deriving DecidableEq

/-- Final normalizations of lines 257-262, applied cell-wise to the columns
that exist in the concatenated table. -/
def finalizeRow (F : MedFlags) (r : MedCells) : MedOutRow :=
  { med := if F.hasMed then some (stripL (cellStr r.med)) else r.med,
    crm := r.crm,
    esp := r.esp,
    pla := if F.hasPla then some (stripL (cellStr r.pla)) else r.pla,
    exc := if F.hasExc then some (flagFinal r.exc) else r.exc,
    dv := if F.hasDv then some (flagFinal r.dv) else r.dv,
    val := if F.hasVal then to_number r.val else none }

/-- The doctor-registry table: which canonical columns exist, and the rows. -/
structure MedOut where
  flags : MedFlags
  rows : List MedOutRow
deriving DecidableEq

/-- `load_medicos_from_excel` (lines 224-263): collect the frames of the
recognized sheets, concatenate their rows (no deduplication), and apply the
final normalizations.  (The source's early return of an empty table when no
sheet qualifies coincides with this formula: all-false flags, no rows.) -/
def load_medicos (wb : List Sheet) : MedOut :=
  let frames := wb.filterMap medFrameOf
  ⟨unionFlags frames,
   ((frames.map (fun f => f.rows)).flatten).map (finalizeRow (unionFlags frames))⟩

/-- The claim's reading of lines 240-246: the FIRST keyword group in the
priority order wins. -/
def renameChainFirst (b1 b2 b3 b4 b5 b6 b7 : Bool) : Option Canon :=
  if b1 then some Canon.med
  else if b2 then some Canon.crm
  else if b3 then some Canon.esp
  else if b4 then some Canon.pla
  else if b5 then some Canon.val
  else if b6 then some Canon.exc
  else if b7 then some Canon.dv
  else none

/-- First-group-wins column mapping, as the claim states it. -/
def renameColFirst (c : Str) : Option Canon :=
  renameChainFirst (nomeKw c) (crmKw c) (espKw c) (plaKw c) (valKw c) (excKw c) (dvKw c)

/-- Last-group-wins chain: the amended reading of lines 240-246. -/
def renameChainLast (b1 b2 b3 b4 b5 b6 b7 : Bool) : Option Canon :=
  if b7 then some Canon.dv
  else if b6 then some Canon.exc
  else if b5 then some Canon.val
  else if b4 then some Canon.pla
  else if b3 then some Canon.esp
  else if b2 then some Canon.crm
  else if b1 then some Canon.med
  else none

/-- Last-group-wins column mapping. -/
def renameColLast (c : Str) : Option Canon :=
  renameChainLast (nomeKw c) (crmKw c) (espKw c) (plaKw c) (valKw c) (excKw c) (dvKw c)

/-- The room-flag normalization as the specification words it: the
uppercase-trimmed text of the cell, in which the literal token "X" becomes
"Sim" and everything else (blank included) passes through unchanged. -/
def flagSpec (c : Cell) : Str :=
  let t := (stripL (cellStr c)).map upperN
  if t = txt "X" then txt "Sim" else t

/-- Accumulator behaviour of the guarded day slot: a pending assignment is
kept, otherwise the alternative applies. -/
def keepFirst (d : Option Nat) (o : Option Nat) : Option Nat :=
  match d with
  | some k => some k
  | none => o

/-- Accumulator behaviour of the unguarded shift slots: a match in the
remaining names (shifted by the running index) overrides the accumulator. -/
def overrideLast (o : Option Nat) (i : Nat) (m : Option Nat) : Option Nat :=
  match o with
  | some k => some (k + i)
  | none => m

/-- Characterisation of the column scan of lines 74-79: the day slot keeps
its first match, the morning and afternoon slots keep their last match. -/
theorem scanCols_spec (cs : List Str) : ∀ (i : Nat) (d m t : Option Nat),
    scanCols i d m t cs =
      (keepFirst d ((firstIdx? diaKw cs).map (fun k => k + i)),
       overrideLast (lastIdx? manhaKw cs) i m,
       overrideLast (lastIdx? tardeKw cs) i t) := by
  induction cs with
  | nil =>
    intro i d m t
    cases d <;> simp [scanCols, firstIdx?, lastIdx?, keepFirst, overrideLast]
  | cons cn rest ih =>
    intro i d m t
    simp only [scanCols]
    rw [ih]
    refine Prod.ext ?_ (Prod.ext ?_ ?_)
    · cases d with
      | some k => simp [keepFirst]
      | none =>
        by_cases hdia : diaKw cn = true
        · simp [keepFirst, firstIdx?, hdia]
        · simp only [firstIdx?, hdia]
          cases h : firstIdx? diaKw rest <;> simp [keepFirst, hdia, h]
          omega
    · cases h : lastIdx? manhaKw rest with
      | some k => simp [overrideLast, lastIdx?, h]; omega
      | none =>
        by_cases hm : manhaKw cn = true <;>
          simp [overrideLast, lastIdx?, h, hm]
    · cases h : lastIdx? tardeKw rest with
      | some k => simp [overrideLast, lastIdx?, h]; omega
      | none =>
        by_cases ht : tardeKw cn = true <;>
          simp [overrideLast, lastIdx?, h, ht]

/-- C1 (corrected).  In the column scan of `detect_header_and_parse`
(src/main.py lines 74-79) the day column is the FIRST column whose
normalized name matches the day keywords (the assignment is guarded by
`if col_dia is None`), but the morning and the afternoon columns are the
LAST matching columns: each later match overwrites the earlier assignment,
so earlier columns of those two categories are the ones ignored. -/
theorem C1_scan_first_day_last_shifts (cs : List Str) :
    scanCols 0 none none none cs =
      (firstIdx? diaKw cs, lastIdx? manhaKw cs, lastIdx? tardeKw cs) := by
  rw [scanCols_spec]
  refine Prod.ext ?_ (Prod.ext ?_ ?_)
  · cases h : firstIdx? diaKw cs <;> simp [keepFirst, h]
  · cases h : lastIdx? manhaKw cs <;> simp [overrideLast, h]
  · cases h : lastIdx? tardeKw cs <;> simp [overrideLast, h]

/-- C1 counterexample: with two columns both containing "tarde", the scan
selects the second one, not the first as the claim states. -/
theorem C1_counterexample :
    ¬ (scanCols 0 none none none [txt "tarde 1", txt "tarde 2"]).2.2 =
        firstIdx? tardeKw [txt "tarde 1", txt "tarde 2"] := by decide

/-- The sequential `if` chain of lines 240-246 equals the last-match-wins
priority chain, whichever of the seven keyword tests fire. -/
theorem renameChain_eq_last (b1 b2 b3 b4 b5 b6 b7 : Bool) :
    renameChain b1 b2 b3 b4 b5 b6 b7 = renameChainLast b1 b2 b3 b4 b5 b6 b7 := by
  cases b1 <;> cases b2 <;> cases b3 <;> cases b4 <;> cases b5 <;> cases b6 <;> cases b7 <;> rfl

/-- C2 (corrected).  Every normalized column name is assigned to at most
one canonical field (the mapping is a single optional value), but when a
name matches the keywords of several canonical fields, the LAST keyword
group in the documented order (name, CRM, specialty, plan, rent,
exclusive-room, shared-room) wins, because each of the sequential `if`
statements of lines 240-246 overwrites `rename[c]`. -/
theorem C2_rename_last_group_wins (c : Str) : renameCol c = renameColLast c :=
  renameChain_eq_last (nomeKw c) (crmKw c) (espKw c) (plaKw c) (valKw c) (excKw c) (dvKw c)

/-- C2 counterexample: the column name "nome crm" matches both the name
group and the CRM group; the code maps it to CRM, while the claim's
first-group-wins priority would map it to Médico. -/
theorem C2_counterexample :
    ¬ renameCol (txt "nome crm") = renameColFirst (txt "nome crm") := by decide

/-- C6 (confirmed).  `_to_number` parses "1.234,56" and "1234,56" to
1234.56, yields missing on "abc" and on a missing input; the definition
`to_number` strips characters other than digits, comma, period and minus,
removes the period when a comma co-occurs (comma becoming the decimal
point), maps a lone comma to the decimal point, and returns missing on any
conversion failure. -/
theorem C6_to_number_cases :
    to_number (some (txt "1.234,56")) = some ((123456 : ℚ) / 100) ∧
    to_number (some (txt "1234,56")) = some ((123456 : ℚ) / 100) ∧
    to_number (some (txt "abc")) = none ∧
    to_number none = none := by
  refine ⟨?_, ?_, ?_, rfl⟩
  · have h : pyParts (sepFix (cleanNum (txt "1.234,56"))) = some (false, 123456, 2) := by
      decide
    simp [to_number, pyFloat, h]
    norm_num
  · have h : pyParts (sepFix (cleanNum (txt "1234,56"))) = some (false, 123456, 2) := by
      decide
    simp [to_number, pyFloat, h]
    norm_num
  · have h : pyParts (sepFix (cleanNum (txt "abc"))) = none := by decide
    simp [to_number, pyFloat, h]

/-- C9 (confirmed).  The cell map applied by `load_medicos_from_excel` to
the two room-flag columns (line 262) equals the specification's wording:
uppercase-trimmed text in which the literal token "X" becomes "Sim" and
every other value — blank, and cells that were originally missing (which
stringify to "nan" and hence to "NAN") — passes through unchanged after the
uppercase-trim; and every row of the output realises that map on its
exclusive-room field whenever that column exists. -/
theorem C9_room_flags :
    (∀ c : Cell, flagFinal c = flagSpec c) ∧
    flagFinal none = txt "NAN" ∧
    flagFinal (some (txt " x ")) = txt "Sim" ∧
    flagFinal (some (txt "sim")) = txt "SIM" ∧
    (∀ (wb : List Sheet) (r : MedOutRow), r ∈ (load_medicos wb).rows →
      (load_medicos wb).flags.hasExc = true → ∃ c : Cell, r.exc = some (flagFinal c)) := by
  refine ⟨?_, by decide, by decide, by decide, ?_⟩
  · intro c
    simp only [flagFinal, flagSpec]
    by_cases h : (stripL (cellStr c)).map upperN = txt "X"
    · simp [h]
    · simp only [beq_iff_eq, h, if_false]
      by_cases h2 : (stripL (cellStr c)).map upperN = txt ""
      · simp [h2]
      · simp [h2]
  · intro wb r hr hexc
    simp only [load_medicos] at hr hexc
    rcases List.mem_map.1 hr with ⟨rc, _, rfl⟩
    exact ⟨rc.exc, by simp [finalizeRow, hexc]⟩

/-- Witness for C9: a concrete doctor sheet with an exclusive-room column
whose "x" cell is normalized to "Sim". -/
theorem C9_room_flags_witness :
    ((⟨some (txt "DR B"), none, none, none, some (txt "Sim"), none, none⟩ : MedOutRow) ∈
      (load_medicos [⟨txt "MEDICOS",
        [[some (txt "NOME"), some (txt "SALA EXCLUSIVA")],
         [some (txt "DR B"), some (txt "x")]]⟩]).rows) ∧
    (load_medicos [⟨txt "MEDICOS",
        [[some (txt "NOME"), some (txt "SALA EXCLUSIVA")],
         [some (txt "DR B"), some (txt "x")]]⟩]).flags.hasExc = true ∧
    ∃ c : Cell,
      (⟨some (txt "DR B"), none, none, none, some (txt "Sim"), none, none⟩ : MedOutRow).exc =
        some (flagFinal c) :=
  ⟨by decide, by decide,
   C9_room_flags.2.2.2.2
     [⟨txt "MEDICOS",
       [[some (txt "NOME"), some (txt "SALA EXCLUSIVA")],
        [some (txt "DR B"), some (txt "x")]]⟩]
     ⟨some (txt "DR B"), none, none, none, some (txt "Sim"), none, none⟩
     (by decide) (by decide)⟩

/-- Membership in the tidy table factors through one sheet and one melted
triple (day, shift, doctor). -/
theorem mem_tidy_structure {wb : List Sheet} {r : SRow}
    (hr : r ∈ tidy_from_sheets wb) :
    ∃ s ∈ wb, schedKeep s.name = true ∧
      ∃ trip ∈ sheetLongRows s, r = mkSRow (stripL s.name) trip := by
  simp only [tidy_from_sheets, List.mem_flatten, List.mem_map] at hr
  rcases hr with ⟨l, ⟨s, hs, rfl⟩, hrl⟩
  refine ⟨s, hs, ?_⟩
  by_cases hk : schedKeep s.name = true
  · simp only [sheetSched, hk, if_true, List.mem_map] at hrl
    rcases hrl with ⟨trip, htrip, rfl⟩
    exact ⟨hk, trip, htrip, rfl⟩
  · simp [sheetSched, hk] at hrl

/-- Every melted triple carries a doctor text obtained by the cleaning map
of line 115 from some source cell. -/
theorem mem_sheetLongRows_medico {s : Sheet} {d t m : Str}
    (h : (d, t, m) ∈ sheetLongRows s) : ∃ c : Cell, m = medClean c := by
  cases hdet : detect_header_and_parse s.grid with
  | none => simp [sheetLongRows, hdet] at h
  | some f =>
    by_cases hemp : f.rows.isEmpty = true
    · simp [sheetLongRows, hdet, hemp] at h
    · simp only [sheetLongRows, hdet, hemp, Bool.false_eq_true, if_false, List.append_eq,
        List.mem_append] at h
      rcases h with h | h
      · by_cases hm : f.hasManha = true
        · simp only [hm, if_true, List.mem_map] at h
          rcases h with ⟨dr, _, heq⟩
          exact ⟨dr.manha, (congrArg (fun p => p.2.2) heq).symm⟩
        · simp [hm] at h
      · by_cases ht : f.hasTarde = true
        · simp only [ht, if_true, List.mem_map] at h
          rcases h with ⟨dr, _, heq⟩
          exact ⟨dr.tarde, (congrArg (fun p => p.2.2) heq).symm⟩
        · simp [ht] at h

/-- Every row of a successfully detected frame has non-empty day text:
line 96 filters on `df["Dia"].str.len() > 0`. -/
theorem detectAt_rows_day_nonempty {g : Grid} {h : Nat} {f : DetFrame}
    (hAt : detectAt g h = some f) : ∀ dr ∈ f.rows, dr.dia ≠ [] := by
  intro dr hdr
  unfold detectAt at hAt
  cases hp : parseAt g h with
  | none => rw [hp] at hAt; exact absurd hAt (by simp)
  | some f0 =>
    rw [hp] at hAt
    simp only at hAt
    split at hAt
    · exact absurd hAt (by simp)
    · split at hAt
      · exact absurd hAt (by simp)
      · split at hAt
        · cases hAt
          have hmem := (List.mem_filter.1 hdr).2
          simpa using hmem
        · exact absurd hAt (by simp)

/-- C3 (corrected).  Day handling of the schedule extractor: a row whose
day value is present is always one of the six canonical days, and rows
whose raw day text is empty are dropped at detection time; but a row whose
non-empty day text falls outside the six categories is NOT dropped — the
categorical conversion of line 120 merely makes its day value missing. -/
theorem C3_day_membership :
    (∀ (wb : List Sheet) (r : SRow), r ∈ tidy_from_sheets wb →
      ∀ d : Str, r.dia = some d → d ∈ sixDias) ∧
    (∀ (g : Grid) (f : DetFrame), detect_header_and_parse g = some f →
      ∀ dr ∈ f.rows, dr.dia ≠ []) := by
  constructor
  · intro wb r hr d hd
    rcases mem_tidy_structure hr with ⟨s, _, _, ⟨dd, tt, mm⟩, _, rfl⟩
    simp only [mkSRow] at hd
    by_cases hc : sixDias.contains dd = true
    · rw [if_pos hc] at hd
      cases hd
      simpa using hc
    · rw [if_neg hc] at hd
      cases hd
  · intro g f hdet dr hdr
    rcases List.exists_of_findSome?_eq_some hdet with ⟨off, _, hAt⟩
    exact detectAt_rows_day_nonempty hAt dr hdr

/-- C3 counterexample: a sheet with day text "DOMINGO" (not one of the six
categories) still contributes a row; its day value is missing rather than
the row being dropped. -/
theorem C3_counterexample :
    tidy_from_sheets [⟨txt "CONSULTORIO 1",
        [[some (txt "DIA"), some (txt "MANHA")],
         [some (txt "DOMINGO"), some (txt "DR A")]]⟩] =
      [⟨txt "CONSULTORIO 1", none, txt "Manhã", txt "DR A", true⟩] := by decide

/-- Witness for C3: a concrete Monday row with a present day value among
the six categories, and a concrete detected frame with non-empty day text. -/
theorem C3_day_membership_witness :
    ((⟨txt "CONSULTORIO 2", some (txt "Segunda"), txt "Manhã", txt "Dr. A", true⟩ : SRow) ∈
      tidy_from_sheets [⟨txt "CONSULTORIO 2",
        [[some (txt "DIA"), some (txt "MANHA"), some (txt "TARDE")],
         [some (txt "SEGUNDA"), some (txt " Dr. A "), some (txt "nan")]]⟩]) ∧
    txt "Segunda" ∈ sixDias ∧
    detect_header_and_parse
        ([[some (txt "DIA"), some (txt "MANHA"), some (txt "TARDE")],
          [some (txt "SEGUNDA"), some (txt " Dr. A "), some (txt "nan")]] : Grid) =
      some ⟨true, true, [⟨txt "SEGUNDA", some (txt " Dr. A "), some (txt "nan")⟩]⟩ ∧
    (⟨txt "SEGUNDA", some (txt " Dr. A "), some (txt "nan")⟩ : DetRow).dia ≠ [] :=
  ⟨by decide,
   C3_day_membership.1
     [⟨txt "CONSULTORIO 2",
       [[some (txt "DIA"), some (txt "MANHA"), some (txt "TARDE")],
        [some (txt "SEGUNDA"), some (txt " Dr. A "), some (txt "nan")]]⟩]
     ⟨txt "CONSULTORIO 2", some (txt "Segunda"), txt "Manhã", txt "Dr. A", true⟩
     (by decide) (txt "Segunda") rfl,
   by decide,
   C3_day_membership.2
     [[some (txt "DIA"), some (txt "MANHA"), some (txt "TARDE")],
      [some (txt "SEGUNDA"), some (txt " Dr. A "), some (txt "nan")]]
     ⟨true, true, [⟨txt "SEGUNDA", some (txt " Dr. A "), some (txt "nan")⟩]⟩
     (by decide)
     ⟨txt "SEGUNDA", some (txt " Dr. A "), some (txt "nan")⟩ (by decide)⟩

/-- C5 (confirmed).  Every produced schedule row carries a doctor text
obtained from its source cell by the mapping of line 115 (stringify, map
the literal "nan"/"None" to empty, trim), and its occupied flag holds
exactly when that text is non-empty. -/
theorem C5_occupied_iff_doctor (wb : List Sheet) (r : SRow)
    (hr : r ∈ tidy_from_sheets wb) :
    (r.ocupado = true ↔ r.medico ≠ []) ∧ ∃ c : Cell, r.medico = medClean c := by
  rcases mem_tidy_structure hr with ⟨s, _, _, ⟨dd, tt, mm⟩, htrip, rfl⟩
  constructor
  · simp [mkSRow]
  · simpa [mkSRow] using mem_sheetLongRows_medico htrip

/-- Witness for C5: the morning slot of a concrete sheet, occupied by
"Dr. A" (trimmed from " Dr. A "), and its empty afternoon slot. -/
theorem C5_occupied_iff_doctor_witness :
    ((⟨txt "CONSULTORIO 2", some (txt "Segunda"), txt "Manhã", txt "Dr. A", true⟩ : SRow) ∈
      tidy_from_sheets [⟨txt "CONSULTORIO 2",
        [[some (txt "DIA"), some (txt "MANHA"), some (txt "TARDE")],
         [some (txt "SEGUNDA"), some (txt " Dr. A "), some (txt "nan")]]⟩]) ∧
    (((⟨txt "CONSULTORIO 2", some (txt "Segunda"), txt "Manhã", txt "Dr. A", true⟩ : SRow).ocupado = true ↔
        (⟨txt "CONSULTORIO 2", some (txt "Segunda"), txt "Manhã", txt "Dr. A", true⟩ : SRow).medico ≠ []) ∧
      ∃ c : Cell,
        (⟨txt "CONSULTORIO 2", some (txt "Segunda"), txt "Manhã", txt "Dr. A", true⟩ : SRow).medico =
          medClean c) :=
  ⟨by decide,
   C5_occupied_iff_doctor
     [⟨txt "CONSULTORIO 2",
       [[some (txt "DIA"), some (txt "MANHA"), some (txt "TARDE")],
        [some (txt "SEGUNDA"), some (txt " Dr. A "), some (txt "nan")]]⟩]
     ⟨txt "CONSULTORIO 2", some (txt "Segunda"), txt "Manhã", txt "Dr. A", true⟩
     (by decide)⟩

/-- C4 (corrected).  The registry keeps every row of every recognized
sheet: the output row count is the sum of the per-sheet recognized row
counts, so no row is filtered out for lacking a name (a missing name
simply stringifies to "nan" in the final trim of line 257; only sheets
with no recognized column at all are skipped). -/
theorem C4_no_name_filter (wb : List Sheet) :
    (load_medicos wb).rows.length =
      ((wb.filterMap medFrameOf).map (fun f => f.rows.length)).sum := by
  show ((((wb.filterMap medFrameOf).map (fun f => f.rows)).flatten).map
      (finalizeRow (unionFlags (wb.filterMap medFrameOf)))).length =
    ((wb.filterMap medFrameOf).map (fun f => f.rows.length)).sum
  simp only [List.length_map, List.length_flatten, List.map_map]
  rfl

/-- C4 counterexample: a doctor sheet with a name column whose single row
has a missing name; the row is kept, its name becoming the text "nan". -/
theorem C4_counterexample :
    (load_medicos [⟨txt "MEDICOS 1",
        [[some (txt "NOME"), some (txt "CRM")],
         [none, some (txt "123")]]⟩]).rows =
      [⟨some (txt "nan"), some (txt "123"), none, none, none, none, none⟩] := by decide

/-- Sheets whose normalized name is not selected contribute nothing to the
schedule table. -/
theorem tidy_filter_invariant (wb : List Sheet) :
    tidy_from_sheets wb = tidy_from_sheets (wb.filter (fun s => schedKeep s.name)) := by
  induction wb with
  | nil => rfl
  | cons s rest ih =>
    by_cases hk : schedKeep s.name = true
    · simp only [tidy_from_sheets, List.map_cons, List.flatten_cons, List.filter_cons,
        hk, if_true] at ih ⊢
      rw [ih]
    · have hnil : sheetSched s = [] := by simp [sheetSched, hk]
      simp only [tidy_from_sheets, List.map_cons, List.flatten_cons, List.filter_cons,
        hk, if_false, hnil, List.nil_append] at ih ⊢
      exact ih

/-- Sheets whose normalized name does not contain "medic" contribute
nothing to the doctor registry. -/
theorem medFrames_filter_invariant (wb : List Sheet) :
    wb.filterMap medFrameOf = (wb.filter (fun s => medKeep s.name)).filterMap medFrameOf := by
  induction wb with
  | nil => rfl
  | cons s rest ih =>
    by_cases hk : medKeep s.name = true
    · simp only [List.filterMap_cons, List.filter_cons, hk, if_true]
      rw [ih]
    · have hnone : medFrameOf s = none := by simp [medFrameOf, hk]
      simp only [List.filterMap_cons, List.filter_cons, hk, if_false, hnone]
      exact ih

/-- C7 (confirmed).  Sheet selection: the schedule table only changes
through sheets whose normalized name contains "consult" and not "ocupa"
(filtering the workbook to those sheets leaves the output unchanged); a
sheet named "OCUPAÇÃO DAS SALAS" never contributes, whatever its grid; and
the doctor registry only changes through sheets whose normalized name
contains "medic". -/
theorem C7_sheet_selection :
    (∀ wb : List Sheet,
      tidy_from_sheets wb = tidy_from_sheets (wb.filter (fun s => schedKeep s.name))) ∧
    (∀ (pre post : List Sheet) (g : Grid),
      tidy_from_sheets (pre ++ (⟨txt "OCUPAÇÃO DAS SALAS", g⟩ : Sheet) :: post) =
        tidy_from_sheets (pre ++ post)) ∧
    (∀ wb : List Sheet,
      load_medicos wb = load_medicos (wb.filter (fun s => medKeep s.name))) := by
  refine ⟨tidy_filter_invariant, ?_, ?_⟩
  · intro pre post g
    have hocc : schedKeep (txt "OCUPAÇÃO DAS SALAS") = false := by decide
    have hnil : sheetSched (⟨txt "OCUPAÇÃO DAS SALAS", g⟩ : Sheet) = [] := by
      simp [sheetSched, hocc]
    simp [tidy_from_sheets, hnil]
  · intro wb
    rw [load_medicos, load_medicos, medFrames_filter_invariant]

/-- C8 (confirmed).  A sheet that fails all header offsets (or whose
parsing throws) and contributes no doctor frame is skipped without
aborting extraction: both outputs on the workbook equal the outputs on the
workbook with that sheet removed, and so does the halting condition — the
dashboard halts only on zero usable schedule rows (lines 125-127), which
the failing sheet cannot influence. -/
theorem C8_failing_sheet_isolated (pre post : List Sheet) (s : Sheet)
    (h1 : detect_header_and_parse s.grid = none) (h2 : medFrameOf s = none) :
    tidy_from_sheets (pre ++ s :: post) = tidy_from_sheets (pre ++ post) ∧
    load_medicos (pre ++ s :: post) = load_medicos (pre ++ post) ∧
    dashboardHalts (pre ++ s :: post) = dashboardHalts (pre ++ post) := by
  have hsched : sheetSched s = [] := by
    simp [sheetSched, sheetLongRows, h1]
  have ht : tidy_from_sheets (pre ++ s :: post) = tidy_from_sheets (pre ++ post) := by
    simp [tidy_from_sheets, hsched]
  refine ⟨ht, ?_, ?_⟩
  · rw [load_medicos, load_medicos]
    simp [h2]
  · rw [dashboardHalts, dashboardHalts, ht]

/-- Witness for C8: a concrete unparseable single-cell sheet inserted
before a valid schedule sheet leaves the schedule table unchanged. -/
theorem C8_failing_sheet_isolated_witness :
    detect_header_and_parse ([[some (txt "x")]] : Grid) = none ∧
    medFrameOf (⟨txt "CONSULTORIO X", [[some (txt "x")]]⟩ : Sheet) = none ∧
    tidy_from_sheets
        ([] ++ (⟨txt "CONSULTORIO X", [[some (txt "x")]]⟩ : Sheet) ::
          [⟨txt "CONSULTORIO 2",
            [[some (txt "DIA"), some (txt "MANHA"), some (txt "TARDE")],
             [some (txt "SEGUNDA"), some (txt " Dr. A "), some (txt "nan")]]⟩]) =
      tidy_from_sheets
        ([] ++ [⟨txt "CONSULTORIO 2",
          [[some (txt "DIA"), some (txt "MANHA"), some (txt "TARDE")],
           [some (txt "SEGUNDA"), some (txt " Dr. A "), some (txt "nan")]]⟩]) :=
  ⟨by decide, by decide,
   (C8_failing_sheet_isolated []
     [⟨txt "CONSULTORIO 2",
       [[some (txt "DIA"), some (txt "MANHA"), some (txt "TARDE")],
        [some (txt "SEGUNDA"), some (txt " Dr. A "), some (txt "nan")]]⟩]
     (⟨txt "CONSULTORIO X", [[some (txt "x")]]⟩ : Sheet)
     (by decide) (by decide)).1⟩

theorem accentN_cases (n : Nat) :
    accentN n = 97 ∨ accentN n = 101 ∨ accentN n = 105 ∨ accentN n = 111 ∨
    accentN n = 117 ∨ accentN n = 99 ∨ accentN n = n := by
  unfold accentN
  split_ifs <;> simp

theorem lowerN_eq_self_of {m : Nat} (h1 : ¬(65 ≤ m ∧ m ≤ 90))
    (h2 : ¬(192 ≤ m ∧ m ≤ 222 ∧ m ≠ 215)) : lowerN m = m := by
  unfold lowerN
  split_ifs
  all_goals omega

theorem lowerN_range (n : Nat) :
    ¬(65 ≤ lowerN n ∧ lowerN n ≤ 90) ∧ ¬(192 ≤ lowerN n ∧ lowerN n ≤ 222 ∧ lowerN n ≠ 215) := by
  unfold lowerN
  split_ifs <;> omega

theorem lowerN_lowerN (n : Nat) : lowerN (lowerN n) = lowerN n :=
  lowerN_eq_self_of (lowerN_range n).1 (lowerN_range n).2

theorem accentN_accentN (n : Nat) : accentN (accentN n) = accentN n := by
  rcases accentN_cases n with h | h | h | h | h | h | h <;> rw [h]
  · decide
  · decide
  · decide
  · decide
  · decide
  · decide
  · exact h

theorem accentN_range {n : Nat} (h1 : ¬(65 ≤ n ∧ n ≤ 90))
    (h2 : ¬(192 ≤ n ∧ n ≤ 222 ∧ n ≠ 215)) :
    ¬(65 ≤ accentN n ∧ accentN n ≤ 90) ∧
    ¬(192 ≤ accentN n ∧ accentN n ≤ 222 ∧ accentN n ≠ 215) := by
  rcases accentN_cases n with h | h | h | h | h | h | h <;> (rw [h]; omega)

theorem lowerN_accentN_lowerN (n : Nat) : lowerN (accentN (lowerN n)) = accentN (lowerN n) :=
  lowerN_eq_self_of (accentN_range (lowerN_range n).1 (lowerN_range n).2).1
    (accentN_range (lowerN_range n).1 (lowerN_range n).2).2

theorem isSpace_lowerN (n : Nat) : isSpace (lowerN n) = isSpace n := by
  unfold lowerN
  split_ifs <;> simp only [isSpace, decide_eq_decide] <;> omega

theorem isSpace_accentN (n : Nat) : isSpace (accentN n) = isSpace n := by
  unfold accentN
  split_ifs <;> simp only [isSpace, decide_eq_decide] <;> omega

theorem map_eq_self_of_fixed {l : List Nat} {f : Nat → Nat} (h : ∀ x ∈ l, f x = x) :
    l.map f = l := by
  induction l with
  | nil => rfl
  | cons c t ih =>
    simp only [List.map_cons]
    rw [h c (by simp), ih (fun x hx => h x (by simp [hx]))]

theorem mem_collapseAux {a : Nat} : ∀ (l : Str) (b : Bool),
    a ∈ collapseAux b l → a = 32 ∨ a ∈ l := by
  intro l
  induction l with
  | nil => intro b h; simp [collapseAux] at h
  | cons c t ih =>
    intro b h
    by_cases hc : isSpace c = true
    · cases b with
      | true =>
        simp only [collapseAux, hc, if_true] at h
        rcases ih true h with h32 | hm
        · exact Or.inl h32
        · exact Or.inr (List.mem_cons_of_mem c hm)
      | false =>
        simp only [collapseAux, hc, if_true, Bool.false_eq_true, if_false] at h
        rcases List.mem_cons.1 h with h32 | h2
        · exact Or.inl h32
        · rcases ih true h2 with h32 | hm
          · exact Or.inl h32
          · exact Or.inr (List.mem_cons_of_mem c hm)
    · simp only [collapseAux, hc, Bool.false_eq_true, if_false] at h
      rcases List.mem_cons.1 h with heq | h2
      · exact Or.inr (heq ▸ List.mem_cons_self c t)
      · rcases ih false h2 with h32 | hm
        · exact Or.inl h32
        · exact Or.inr (List.mem_cons_of_mem c hm)

theorem collapseAux_true_head : ∀ (l : Str) (x : Nat) (xs : Str),
    collapseAux true l = x :: xs → isSpace x = false := by
  intro l
  induction l with
  | nil => intro x xs h; simp [collapseAux] at h
  | cons c t ih =>
    intro x xs h
    by_cases hc : isSpace c = true
    · simp only [collapseAux, hc, if_true] at h
      exact ih x xs h
    · simp only [collapseAux, hc, Bool.false_eq_true, if_false, List.cons.injEq] at h
      rcases h with ⟨rfl, _⟩
      simpa using hc

theorem collapseAux_flag_of_head {c : Nat} {t : Str} (hc : isSpace c = false) (b : Bool) :
    collapseAux b (c :: t) = c :: collapseAux false t := by
  simp [collapseAux, hc]

theorem collapseAux_idem : ∀ (l : Str) (b : Bool),
    collapseAux false (collapseAux b l) = collapseAux b l := by
  intro l
  induction l with
  | nil => intro b; simp [collapseAux]
  | cons c t ih =>
    intro b
    by_cases hc : isSpace c = true
    · cases b with
      | true =>
        simp only [collapseAux, hc, if_true]
        exact ih true
      | false =>
        simp only [collapseAux, hc, if_true, Bool.false_eq_true, if_false]
        have h32 : isSpace 32 = true := rfl
        simp only [collapseAux, h32, if_true, Bool.false_eq_true, if_false]
        congr 1
        cases hct : collapseAux true t with
        | nil => simp [collapseAux]
        | cons x xs =>
          have hx : isSpace x = false := collapseAux_true_head t x xs hct
          have hfalse : collapseAux false (x :: xs) = x :: xs := by
            rw [← hct]; exact ih true
          rw [collapseAux_flag_of_head hx true, ← collapseAux_flag_of_head hx false]
          exact hfalse
    · have hcf : isSpace c = false := by simpa using hc
      rw [collapseAux_flag_of_head hcf b, collapseAux_flag_of_head hcf false]
      congr 1
      exact ih false

theorem collapseAux_eq_nil : ∀ (l : Str) (b : Bool), collapseAux b l = [] →
    ∀ a ∈ l, isSpace a = true := by
  intro l
  induction l with
  | nil => intro b _ a ha; simp at ha
  | cons c t ih =>
    intro b h a ha
    by_cases hc : isSpace c = true
    · cases b with
      | true =>
        simp only [collapseAux, hc, if_true] at h
        rcases List.mem_cons.1 ha with rfl | ha2
        · exact hc
        · exact ih true h a ha2
      | false => simp [collapseAux, hc] at h
    · have hcf : isSpace c = false := by simpa using hc
      rw [collapseAux_flag_of_head hcf b] at h
      simp at h

theorem getLast?_append_ne {u v : Str} (h : v ≠ []) : (u ++ v).getLast? = v.getLast? := by
  induction u with
  | nil => rfl
  | cons c t ih =>
    cases hv : t ++ v with
    | nil => exact absurd (List.append_eq_nil.1 hv).2 h
    | cons y ys =>
      rw [List.cons_append, hv, List.getLast?_cons_cons, ← hv, ih]

theorem collapseAux_false_space {c : Nat} {t : Str} (hc : isSpace c = true) :
    collapseAux false (c :: t) = 32 :: collapseAux true t := by
  rw [collapseAux, if_pos hc, if_neg (by simp)]

theorem collapseAux_true_space {c : Nat} {t : Str} (hc : isSpace c = true) :
    collapseAux true (c :: t) = collapseAux true t := by
  rw [collapseAux, if_pos hc, if_pos rfl]

theorem collapseAux_last : ∀ (l : Str) (b : Bool),
    (∀ a, l.getLast? = some a → isSpace a = false) →
    ∀ x, (collapseAux b l).getLast? = some x → isSpace x = false := by
  intro l
  induction l with
  | nil => intro b _ x hx; simp [collapseAux] at hx
  | cons c t ih =>
    intro b hl x hx
    by_cases hc : isSpace c = true
    · cases t with
      | nil =>
        have hcon := hl c (by simp)
        rw [hc] at hcon
        cases hcon
      | cons c2 t2 =>
        have hl2 : ∀ a, (c2 :: t2).getLast? = some a → isSpace a = false := by
          intro a ha
          exact hl a (by rw [List.getLast?_cons_cons]; exact ha)
        cases b with
        | true =>
          rw [collapseAux_true_space hc] at hx
          exact ih true hl2 x hx
        | false =>
          rw [collapseAux_false_space hc] at hx
          cases hY : collapseAux true (c2 :: t2) with
          | nil =>
            exfalso
            obtain ⟨a, ha⟩ : ∃ a, (c2 :: t2).getLast? = some a := by
              cases hgl : (c2 :: t2).getLast? with
              | none =>
                rw [List.getLast?_eq_none_iff] at hgl
                exact absurd hgl (by simp)
              | some a => exact ⟨a, rfl⟩
            have hmem := List.mem_of_getLast?_eq_some ha
            have hsp := collapseAux_eq_nil (c2 :: t2) true hY a hmem
            rw [hl2 a ha] at hsp
            cases hsp
          | cons y ys =>
            rw [hY, List.getLast?_cons_cons] at hx
            exact ih true hl2 x (by rw [hY]; exact hx)
    · have hcf : isSpace c = false := by simpa using hc
      rw [collapseAux_flag_of_head hcf b] at hx
      cases t with
      | nil =>
        simp [collapseAux] at hx
        rw [← hx]
        exact hcf
      | cons c2 t2 =>
        have hl2 : ∀ a, (c2 :: t2).getLast? = some a → isSpace a = false := by
          intro a ha
          exact hl a (by rw [List.getLast?_cons_cons]; exact ha)
        cases hY : collapseAux false (c2 :: t2) with
        | nil =>
          rw [hY] at hx
          simp at hx
          rw [← hx]
          exact hcf
        | cons y ys =>
          rw [hY, List.getLast?_cons_cons] at hx
          exact ih false hl2 x (by rw [hY]; exact hx)

theorem head?_dropWhile_not {p : Nat → Bool} : ∀ (l : Str) (a : Nat),
    (l.dropWhile p).head? = some a → p a = false := by
  intro l
  induction l with
  | nil => intro a h; simp at h
  | cons c t ih =>
    intro a h
    by_cases hc : p c = true
    · rw [List.dropWhile_cons, if_pos hc] at h
      exact ih a h
    · have hcf : p c = false := by simpa using hc
      rw [List.dropWhile_cons, if_neg (by simp [hcf])] at h
      simp at h
      rw [← h]
      exact hcf

theorem dropWhile_eq_self_of_head {p : Nat → Bool} {l : Str}
    (h : ∀ a, l.head? = some a → p a = false) : l.dropWhile p = l := by
  cases l with
  | nil => rfl
  | cons c t =>
    rw [List.dropWhile_cons, if_neg]
    simp [h c rfl]

theorem stripL_eq_self {l : Str}
    (hh : ∀ a, l.head? = some a → isSpace a = false)
    (hl : ∀ a, l.getLast? = some a → isSpace a = false) : stripL l = l := by
  unfold stripL
  rw [dropWhile_eq_self_of_head hh]
  rw [dropWhile_eq_self_of_head (fun a ha => hl a (by rw [← List.head?_reverse]; exact ha))]
  exact List.reverse_reverse l

theorem stripL_last {l : Str} : ∀ a, (stripL l).getLast? = some a → isSpace a = false := by
  intro a ha
  unfold stripL at ha
  rw [List.getLast?_reverse] at ha
  exact head?_dropWhile_not _ a ha

theorem stripL_head {l : Str} : ∀ a, (stripL l).head? = some a → isSpace a = false := by
  intro a ha
  unfold stripL at ha
  rw [List.head?_reverse] at ha
  cases hX : ((l.dropWhile isSpace).reverse).dropWhile isSpace with
  | nil => rw [hX] at ha; simp at ha
  | cons y ys =>
    rw [hX] at ha
    have hsplit : ((l.dropWhile isSpace).reverse).takeWhile isSpace ++ (y :: ys) =
        (l.dropWhile isSpace).reverse := by
      rw [← hX]
      exact List.takeWhile_append_dropWhile _ _
    have hA : ((l.dropWhile isSpace).reverse).getLast? = some a := by
      rw [← hsplit, getLast?_append_ne (by simp)]
      exact ha
    rw [List.getLast?_reverse] at hA
    exact head?_dropWhile_not _ a hA

theorem normalize_col_chars {l : Str} {a : Nat} (h : a ∈ normalize_col l) :
    lowerN a = a ∧ accentN a = a := by
  unfold normalize_col collapseWs at h
  rcases mem_collapseAux _ _ h with h32 | hm
  · rw [h32]
    exact ⟨by decide, by decide⟩
  · rcases List.mem_map.1 hm with ⟨b, hb, rfl⟩
    rcases List.mem_map.1 hb with ⟨c, _, rfl⟩
    exact ⟨lowerN_accentN_lowerN c, accentN_accentN (lowerN c)⟩

theorem normalize_col_head {l : Str} : ∀ a, (normalize_col l).head? = some a →
    isSpace a = false := by
  intro a ha
  unfold normalize_col collapseWs at ha
  cases hz : ((stripL l).map lowerN).map accentN with
  | nil => rw [hz] at ha; simp [collapseAux] at ha
  | cons c t =>
    have hc : isSpace c = false := by
      have hhead : (((stripL l).map lowerN).map accentN).head? = some c := by rw [hz]; rfl
      rw [List.head?_map, List.head?_map] at hhead
      cases h0 : (stripL l).head? with
      | none => rw [h0] at hhead; simp at hhead
      | some c0 =>
        rw [h0] at hhead
        simp only [Option.map_some'] at hhead
        cases hhead
        rw [isSpace_accentN, isSpace_lowerN]
        exact stripL_head c0 h0
    rw [hz, collapseAux_flag_of_head hc false] at ha
    simp only [List.head?_cons, Option.some.injEq] at ha
    rw [← ha]
    exact hc

theorem normalize_col_last {l : Str} : ∀ a, (normalize_col l).getLast? = some a →
    isSpace a = false := by
  intro a ha
  unfold normalize_col collapseWs at ha
  refine collapseAux_last _ false ?_ a ha
  intro b hb
  rw [List.getLast?_map, List.getLast?_map] at hb
  cases h0 : (stripL l).getLast? with
  | none => rw [h0] at hb; simp at hb
  | some c0 =>
    rw [h0] at hb
    simp only [Option.map_some'] at hb
    cases hb
    rw [isSpace_accentN, isSpace_lowerN]
    exact stripL_last c0 h0

/-- C10 (confirmed).  `_normalize_col` is idempotent: stripping is the
identity on its output (no leading or trailing whitespace survives),
lowercasing and the accent replacements are the identity on its characters,
and the whitespace collapse is idempotent. -/
theorem C10_normalize_col_idempotent (l : Str) :
    normalize_col (normalize_col l) = normalize_col l := by
  have hstrip : stripL (normalize_col l) = normalize_col l :=
    stripL_eq_self (fun a ha => normalize_col_head a ha) (fun a ha => normalize_col_last a ha)
  have hlower : (normalize_col l).map lowerN = normalize_col l :=
    map_eq_self_of_fixed (fun x hx => (normalize_col_chars hx).1)
  have haccent : (normalize_col l).map accentN = normalize_col l :=
    map_eq_self_of_fixed (fun x hx => (normalize_col_chars hx).2)
  calc normalize_col (normalize_col l)
      = collapseWs (((stripL (normalize_col l)).map lowerN).map accentN) := rfl
    _ = collapseWs (normalize_col l) := by rw [hstrip, hlower, haccent]
    _ = normalize_col l := by
        unfold normalize_col collapseWs
        exact collapseAux_idem _ false
